import Mathlib

/-!
# Verification of the active-application engine (`source/active_application.cpp`)

Shallow embedding of the firmware verify / erase / write / copy operations of the
bootloader. External capabilities (flash driver, update-client storage, SHA-256,
block device) are modelled as explicit function parameters:

* the flash driver's `read` is a function `Nat → Nat → Int × List Nat` giving, for a
  call `flash.read(buffer_array, addr, size)`, the returned status and the bytes that
  end up in the staging buffer;
* the incremental SHA-256 context (`mbedtls_sha256_init/update/finish`) is modelled
  by its contract: the context accumulates the fed bytes and `finish` applies an
  abstract digest function `H` to the accumulated byte string;
* tri-state return codes `RESULT_SUCCESS / RESULT_EMPTY / RESULT_ERROR` become the
  inductive `BootResult`.
-/

/-- The tri-state return code of `bootloader_common.h`
    (`RESULT_SUCCESS`, `RESULT_EMPTY`, `RESULT_ERROR`). -/
inductive BootResult
| success
| empty
| error
deriving DecidableEq

/-- `arm_uc_firmware_details_t`, restricted to the fields this translation unit
    reads: payload byte length, version, and the 32-byte SHA-256 of the payload. -/
structure FirmwareDetails where
  size : Nat
  version : Nat
  hash : List Nat
deriving DecidableEq

/-- `mbedtls_sha256_init`/`starts`: the fresh incremental hashing context. -/
def sha256_start : List Nat := []

/-- `mbedtls_sha256_update`: the context accumulates the bytes fed so far. -/
def sha256_update (ctx bs : List Nat) : List Nat := ctx ++ bs

/-- `mbedtls_sha256_finish` under an abstract digest function `H`: the digest of the
    accumulated bytes. -/
def sha256_finish (H : List Nat → List Nat) (ctx : List Nat) : List Nat := H ctx

/-- Chunked incremental digesting: feed each chunk in order, then finish. -/
def incrementalDigest (H : List Nat → List Nat) (chunks : List (List Nat)) : List Nat :=
  sha256_finish H (chunks.foldl sha256_update sha256_start)

/-- The bytes a flash device with contents `mem` holds at `[addr, addr + n)`. -/
def readRange (mem : Nat → Nat) (addr n : Nat) : List Nat :=
  (List.range n).map fun i => mem (addr + i)

/-- A flash-read capability whose every call succeeds (status 0) and returns the
    device contents `mem` at the requested range. -/
def memRead (mem : Nat → Nat) : Nat → Nat → Int × List Nat :=
  fun addr n => (0, readRange mem addr n)

/-- The digest loop of `checkActiveApplication` (lines 135-156 of
`active_application.cpp`):

    while ((remaining > 0) && (status == 0)) {
        readSize = (remaining > BUFFER_SIZE) ? BUFFER_SIZE : remaining;
        status = flash.read(buffer_array, appStart + (size - remaining), readSize);
        mbedtls_sha256_update(ctx, buffer_array, readSize);
        remaining -= readSize;
    }

Exactly as in the C, the chunk placed in the buffer by `flash.read` is fed to the
hash context before the read status is inspected; the status is only consulted by
the loop guard of the next iteration. Returns the final context and status.
`BUFFER_SIZE > 0` (a build-time constant) is a parameter because the C loop does
not terminate otherwise. -/
def hashLoop (flashRead : Nat → Nat → Int × List Nat) (bufSize : Nat) (hb : 0 < bufSize)
    (appStart size : Nat) (remaining : Nat) (ctx : List Nat) (status : Int) :
    List Nat × Int :=
  if 0 < remaining ∧ status = 0 then
    let readSize := if remaining > bufSize then bufSize else remaining
    let r := flashRead (appStart + (size - remaining)) readSize
    hashLoop flashRead bufSize hb appStart size (remaining - readSize)
      (sha256_update ctx r.2) r.1
  else
    (ctx, status)
termination_by remaining
decreasing_by
  simp_wf
  split <;> omega

/-- `checkActiveApplication` (lines 104-183). The outcome of
`readActiveFirmwareHeader` is the parameter `hdr` (`none` = the header read failed).
When the header is valid and `size > 0` the digest loop runs, the hash is finalized
and compared (`memcmp`) against `details->hash` — unconditionally, as in the C,
whatever the final read status was. -/
def checkActiveApplication (H : List Nat → List Nat)
    (flashRead : Nat → Nat → Int × List Nat) (appStart bufSize : Nat)
    (hb : 0 < bufSize) (hdr : Option FirmwareDetails) : BootResult :=
  match hdr with
  | none => BootResult.error
  | some d =>
    if 0 < d.size then
      let r := hashLoop flashRead bufSize hb appStart d.size d.size sha256_start 0
      let SHA := sha256_finish H r.1
      if SHA = d.hash then BootResult.success else BootResult.error
    else
      BootResult.empty

theorem readRange_zero (mem : Nat → Nat) (addr : Nat) : readRange mem addr 0 = [] := by
  simp [readRange]

theorem readRange_add (mem : Nat → Nat) (addr m n : Nat) :
    readRange mem addr (m + n) = readRange mem addr m ++ readRange mem (addr + m) n := by
  simp only [readRange, List.range_add, List.map_append, List.map_map]
  congr 1
  apply List.map_congr_left
  intro i _
  simp [Nat.add_assoc]

/-- On a device whose reads all succeed, the digest loop accumulates exactly the
bytes of the remaining range and ends with status 0. -/
theorem hashLoop_memRead (mem : Nat → Nat) (bufSize : Nat) (hb : 0 < bufSize)
    (appStart size : Nat) :
    ∀ remaining, remaining ≤ size → ∀ ctx,
      hashLoop (memRead mem) bufSize hb appStart size remaining ctx 0 =
        (ctx ++ readRange mem (appStart + (size - remaining)) remaining, 0) := by
  intro remaining
  induction remaining using Nat.strong_induction_on with
  | _ remaining ih =>
    intro hle ctx
    rw [hashLoop]
    by_cases hr : 0 < remaining
    · rw [if_pos ⟨hr, rfl⟩]
      have hrs : (if remaining > bufSize then bufSize else remaining) ≤ remaining := by
        split <;> omega
      have hpos : 0 < (if remaining > bufSize then bufSize else remaining) := by
        split <;> omega
      set readSize := if remaining > bufSize then bufSize else remaining with hdef
      have hlt : remaining - readSize < remaining := by omega
      simp only [memRead]
      rw [ih (remaining - readSize) hlt (by omega)]
      have haddr : appStart + (size - (remaining - readSize)) =
          appStart + (size - remaining) + readSize := by omega
      rw [haddr]
      have hsplit : readRange mem (appStart + (size - remaining)) remaining =
          readRange mem (appStart + (size - remaining)) readSize ++
            readRange mem (appStart + (size - remaining) + readSize)
              (remaining - readSize) := by
        have : remaining = readSize + (remaining - readSize) := by omega
        rw [this, readRange_add]
        congr 2 <;> omega
      rw [hsplit]
      simp [memRead, sha256_update, List.append_assoc]
    · rw [if_neg (by omega)]
      have : remaining = 0 := by omega
      subst this
      simp [readRange_zero]

theorem foldl_sha256_update (chunks : List (List Nat)) :
    ∀ start, chunks.foldl sha256_update start = start ++ chunks.flatten := by
  induction chunks with
  | nil => intro start; simp
  | cons c cs ih => intro start; simp [sha256_update, ih, List.append_assoc]

/-- C1: `checkActiveApplication` returns `RESULT_ERROR` when the header read fails;
when the header read succeeds and `details.size > 0` it digests the declared byte
range `[appStart, appStart + size)` and returns `RESULT_SUCCESS` exactly when that
digest equals `details.hash` byte-for-byte and `RESULT_ERROR` otherwise; and when
the header read succeeds with `details.size == 0` it returns `RESULT_EMPTY`.
The region state is an arbitrary flash content `mem` (all reads succeeding). -/
theorem C1_verify_classification (H : List Nat → List Nat) (mem : Nat → Nat)
    (appStart bufSize : Nat) (hb : 0 < bufSize) (hdr : Option FirmwareDetails) :
    (hdr = none →
      checkActiveApplication H (memRead mem) appStart bufSize hb hdr = BootResult.error) ∧
    (∀ d, hdr = some d → 0 < d.size →
      (checkActiveApplication H (memRead mem) appStart bufSize hb hdr = BootResult.success ↔
        H (readRange mem appStart d.size) = d.hash) ∧
      (H (readRange mem appStart d.size) ≠ d.hash →
        checkActiveApplication H (memRead mem) appStart bufSize hb hdr = BootResult.error)) ∧
    (∀ d, hdr = some d → d.size = 0 →
      checkActiveApplication H (memRead mem) appStart bufSize hb hdr = BootResult.empty) := by
  refine ⟨?_, ?_, ?_⟩
  · rintro rfl
    rfl
  · rintro d rfl hpos
    have hl := hashLoop_memRead mem bufSize hb appStart d.size d.size le_rfl sha256_start
    simp only [Nat.sub_self, Nat.add_zero] at hl
    simp only [checkActiveApplication]
    rw [if_pos hpos, hl]
    simp only [sha256_finish, sha256_start, List.nil_append]
    constructor
    · constructor
      · split
        · intro _
          assumption
        · intro h
          exact absurd h (by simp)
      · intro h
        rw [if_pos h]
    · intro h
      rw [if_neg h]
  · rintro d rfl hsz
    simp only [checkActiveApplication]
    rw [if_neg (by omega)]

theorem C1_verify_classification_witness :
    (0 : Nat) < 2 ∧
    checkActiveApplication (fun l => l) (memRead fun i => i + 10) 0 2 Nat.zero_lt_two
      (some ⟨3, 7, [10, 11, 12]⟩) = BootResult.success :=
  ⟨Nat.zero_lt_two,
   ((C1_verify_classification (fun l => l) (fun i => i + 10) 0 2 Nat.zero_lt_two
      (some ⟨3, 7, [10, 11, 12]⟩)).2.1 ⟨3, 7, [10, 11, 12]⟩ rfl (by decide)).1.mpr
      (by decide)⟩

/-- A flash device on which every read call reports failure (status `-1`) while the
staging buffer is left holding the bytes `[7, 7, 7, 7]`. -/
def failingDevice : Nat → Nat → Int × List Nat := fun _ _ => (-1, [7, 7, 7, 7])

/-- C2 fails on the code: in the digest loop of `checkActiveApplication`
(lines 135-163), `mbedtls_sha256_update` runs on the buffer before the read status
is inspected, and after the loop the status is never checked, so the (partial) hash
is always compared against `details->hash`. Here every flash read fails with status
`-1`, yet the failed chunk's buffer bytes are hashed, the comparison runs, and the
function even returns `RESULT_SUCCESS` because the stale buffer bytes happen to
match the recorded digest. -/
theorem C2_failed_read_is_hashed_and_compared :
    (failingDevice 0 4).1 ≠ 0 ∧
    checkActiveApplication (fun l => l) failingDevice 0 4 (by omega)
      (some ⟨4, 1, [7, 7, 7, 7]⟩) = BootResult.success := by
  refine ⟨by decide, ?_⟩
  simp [checkActiveApplication, hashLoop, failingDevice, sha256_update, sha256_start,
    sha256_finish]

/-- C3: for every payload and every partition of it into chunks of at most the
staging-buffer capacity, feeding the chunks through the incremental hash context and
finishing yields the same digest as a single hash call on the whole payload; in
particular the digest computed by the verification loop of `checkActiveApplication`
over a device `mem` equals the single-call digest of the whole declared range. -/
theorem C3_chunk_invariance (H : List Nat → List Nat) (cap : Nat)
    (chunks : List (List Nat)) (payload : List Nat)
    (hcap : ∀ c ∈ chunks, c.length ≤ cap) (hjoin : chunks.flatten = payload) :
    incrementalDigest H chunks = sha256_finish H payload ∧
    ∀ mem appStart size bufSize (hb : 0 < bufSize),
      sha256_finish H
          (hashLoop (memRead mem) bufSize hb appStart size size sha256_start 0).1 =
        sha256_finish H (readRange mem appStart size) := by
  constructor
  · rw [incrementalDigest, foldl_sha256_update, sha256_start, List.nil_append, hjoin]
  · intro mem appStart size bufSize hb
    rw [hashLoop_memRead mem bufSize hb appStart size size le_rfl sha256_start]
    simp [sha256_start]

theorem C3_chunk_invariance_witness :
    ([[1, 2], [3]] : List (List Nat)).flatten = [1, 2, 3] ∧
    incrementalDigest (fun l => l) [[1, 2], [3]] = sha256_finish (fun l => l) [1, 2, 3] :=
  ⟨by decide,
   (C3_chunk_invariance (fun l => l) 2 [[1, 2], [3]] [1, 2, 3] (by decide) (by decide)).1⟩

/-- The four steps of the Replace-In-Place orchestrator `copyStoredApplication`. -/
inductive CopyStep
| erase
| writeHeader
| writePayload
| verify
deriving DecidableEq

/-- `copyStoredApplication` (lines 402-447), instrumented with the list of steps it
invokes. The boolean outcomes of `eraseActiveFirmware(details->size)`,
`writeActiveFirmwareHeader(details)` and `writeActiveFirmware(index, details)` are
the parameters `eraseOk`, `hdrOk`, `fwOk`; the final re-verification is the actual
`checkActiveApplication` applied to the header read back after the write
(`hdrAfterWrite`). Mirrors the C's `result = step(); if (result) ...` chain. -/
def copyStoredApplication (eraseOk hdrOk fwOk : Bool) (H : List Nat → List Nat)
    (flashRead : Nat → Nat → Int × List Nat) (appStart bufSize : Nat)
    (hb : 0 < bufSize) (hdrAfterWrite : Option FirmwareDetails) :
    Bool × List CopyStep :=
  if eraseOk then
    if hdrOk then
      if fwOk then
        let recheck := checkActiveApplication H flashRead appStart bufSize hb hdrAfterWrite
        (if recheck = BootResult.success then true else false,
         [CopyStep.erase, CopyStep.writeHeader, CopyStep.writePayload, CopyStep.verify])
      else
        (false, [CopyStep.erase, CopyStep.writeHeader, CopyStep.writePayload])
    else
      (false, [CopyStep.erase, CopyStep.writeHeader])
  else
    (false, [CopyStep.erase])

/-- C4: `copyStoredApplication` runs its steps strictly in the order erase, write
header, write payload, re-verify; any failing step skips all later steps (an erase
failure means the write-header step is never invoked and the whole call fails), and
overall success holds exactly when all three mutation steps succeed and the final
`checkActiveApplication` returns `RESULT_SUCCESS` (so `RESULT_EMPTY` or a header-only
notion of success is not sufficient). -/
theorem C4_replace_in_place_order (eraseOk hdrOk fwOk : Bool) (H : List Nat → List Nat)
    (flashRead : Nat → Nat → Int × List Nat) (appStart bufSize : Nat)
    (hb : 0 < bufSize) (hdrAfterWrite : Option FirmwareDetails) :
    (copyStoredApplication eraseOk hdrOk fwOk H flashRead appStart bufSize hb
        hdrAfterWrite).2 =
      CopyStep.erase ::
        (if eraseOk then
          CopyStep.writeHeader ::
            (if hdrOk then
              CopyStep.writePayload :: (if fwOk then [CopyStep.verify] else [])
            else [])
        else []) ∧
    (eraseOk = false →
      copyStoredApplication eraseOk hdrOk fwOk H flashRead appStart bufSize hb
        hdrAfterWrite = (false, [CopyStep.erase])) ∧
    ((copyStoredApplication eraseOk hdrOk fwOk H flashRead appStart bufSize hb
        hdrAfterWrite).1 = true ↔
      eraseOk = true ∧ hdrOk = true ∧ fwOk = true ∧
        checkActiveApplication H flashRead appStart bufSize hb hdrAfterWrite =
          BootResult.success) := by
  by_cases hrc : checkActiveApplication H flashRead appStart bufSize hb hdrAfterWrite =
      BootResult.success <;>
    cases eraseOk <;> cases hdrOk <;> cases fwOk <;>
      simp [copyStoredApplication, hrc]

theorem C4_replace_in_place_order_witness :
    (copyStoredApplication false true true (fun l => l) (memRead fun _ => 0) 0 1
        Nat.one_pos none).2 =
      CopyStep.erase ::
        (if false then
          CopyStep.writeHeader ::
            (if true then
              CopyStep.writePayload :: (if true then [CopyStep.verify] else [])
            else [])
        else []) ∧
    (false = false →
      copyStoredApplication false true true (fun l => l) (memRead fun _ => 0) 0 1
        Nat.one_pos none = (false, [CopyStep.erase])) ∧
    ((copyStoredApplication false true true (fun l => l) (memRead fun _ => 0) 0 1
        Nat.one_pos none).1 = true ↔
      false = true ∧ true = true ∧ true = true ∧
        checkActiveApplication (fun l => l) (memRead fun _ => 0) 0 1 Nat.one_pos none =
          BootResult.success) :=
  C4_replace_in_place_order false true true (fun l => l) (memRead fun _ => 0) 0 1
    Nat.one_pos none

/-- C9: for a details record with `size == 0`, even when erase, header write and
payload write all report success, the final re-verification of
`copyStoredApplication` classifies the region as `RESULT_EMPTY`, not
`RESULT_SUCCESS`, so the whole operation returns failure. -/
theorem C9_empty_details_never_success (H : List Nat → List Nat)
    (flashRead : Nat → Nat → Int × List Nat) (appStart bufSize : Nat)
    (hb : 0 < bufSize) (d : FirmwareDetails) (hsz : d.size = 0) :
    checkActiveApplication H flashRead appStart bufSize hb (some d) =
      BootResult.empty ∧
    (copyStoredApplication true true true H flashRead appStart bufSize hb
        (some d)).1 = false := by
  have hchk : checkActiveApplication H flashRead appStart bufSize hb (some d) =
      BootResult.empty := by
    simp only [checkActiveApplication]
    rw [if_neg (by omega)]
  refine ⟨hchk, ?_⟩
  simp [copyStoredApplication, hchk]

theorem C9_empty_details_never_success_witness :
    checkActiveApplication (fun l => l) (memRead fun _ => 0) 0 1 Nat.one_pos
        (some ⟨0, 5, []⟩) = BootResult.empty ∧
    (copyStoredApplication true true true (fun l => l) (memRead fun _ => 0) 0 1
        Nat.one_pos (some ⟨0, 5, []⟩)).1 = false :=
  C9_empty_details_never_success (fun l => l) (memRead fun _ => 0) 0 1 Nat.one_pos
    ⟨0, 5, []⟩ rfl

/-- The first walk of `eraseActiveFirmware` (lines 194-199): starting from the
header base address, accumulate the per-address sector sizes until the span covers
`size_needed`, giving the sector-aligned erase end address. The sector-size
capability `flash.get_sector_size` is the parameter `sectorSize`; the C loop does
not terminate on a zero sector size, so positivity is a parameter. -/
def findEraseEnd (sectorSize : Nat → Nat) (hs : ∀ a, 0 < sectorSize a)
    (limit : Nat) (addr : Nat) : Nat :=
  if addr < limit then
    findEraseEnd sectorSize hs limit (addr + sectorSize addr)
  else
    addr
termination_by limit - addr
decreasing_by
  have := hs addr
  omega

/-- The erase loop of `eraseActiveFirmware` (lines 213-229): erase one sector at a
time, breaking on the first call that returns a non-zero status. `eraseStatus` is
the status that the driver's `flash.erase(addr, size)` call reports. Returns the
final value of the C `result` variable together with the list of erase calls
issued, each as (address, sector size, returned status). -/
def eraseLoop (sectorSize : Nat → Nat) (hs : ∀ a, 0 < sectorSize a)
    (eraseStatus : Nat → Nat → Int) (limit : Nat) (addr : Nat) (result : Int) :
    Int × List (Nat × Nat × Int) :=
  if addr < limit then
    if eraseStatus addr (sectorSize addr) = 0 then
      ((eraseLoop sectorSize hs eraseStatus limit (addr + sectorSize addr)
          (eraseStatus addr (sectorSize addr))).1,
       (addr, sectorSize addr, eraseStatus addr (sectorSize addr)) ::
         (eraseLoop sectorSize hs eraseStatus limit (addr + sectorSize addr)
           (eraseStatus addr (sectorSize addr))).2)
    else
      (eraseStatus addr (sectorSize addr), [(addr, sectorSize addr,
        eraseStatus addr (sectorSize addr))])
  else
    (result, [])
termination_by limit - addr
decreasing_by
  have := hs addr
  omega

/-- `eraseActiveFirmware` (lines 188-240). The configuration constants
`FIRMWARE_METADATA_HEADER_ADDRESS`, `FIRMWARE_METADATA_HEADER_SIZE`,
`MBED_CONF_APP_APPLICATION_START_ADDRESS` and `MBED_CONF_APP_MAX_APPLICATION_SIZE`
are the parameters `hdrAddr`, `hdrSize`, `appStart`, `maxAppSize`. Returns the C
boolean result, whether the capacity-exceeded diagnostic branch (the `tr_error` of
lines 231-237) was taken, and the erase calls issued (empty means the region's
bytes were left untouched). -/
def eraseActiveFirmware (sectorSize : Nat → Nat) (hs : ∀ a, 0 < sectorSize a)
    (eraseStatus : Nat → Nat → Int) (hdrAddr hdrSize appStart maxAppSize : Nat)
    (firmwareSize : Nat) : Bool × Bool × List (Nat × Nat × Int) :=
  if findEraseEnd sectorSize hs (hdrAddr + (hdrSize + firmwareSize)) hdrAddr <
      maxAppSize + appStart then
    ((if (eraseLoop sectorSize hs eraseStatus (hdrAddr + (hdrSize + firmwareSize))
        hdrAddr (-1)).1 = 0 then true else false),
     false,
     (eraseLoop sectorSize hs eraseStatus (hdrAddr + (hdrSize + firmwareSize))
       hdrAddr (-1)).2)
  else
    (false, true, [])

/-- Fail-fast: in any erase-loop run, every issued erase call except possibly the
last one returned status 0 — the loop never issues another call after a failure. -/
theorem eraseLoop_dropLast (sectorSize : Nat → Nat) (hs : ∀ a, 0 < sectorSize a)
    (eraseStatus : Nat → Nat → Int) (limit : Nat) :
    ∀ n addr result, limit - addr ≤ n →
      ∀ c ∈ (eraseLoop sectorSize hs eraseStatus limit addr result).2.dropLast,
        c.2.2 = 0 := by
  intro n
  induction n with
  | zero =>
    intro addr result h c hc
    rw [eraseLoop, if_neg (by omega)] at hc
    simp at hc
  | succ n ih =>
    intro addr result h c hc
    rw [eraseLoop] at hc
    by_cases haddr : addr < limit
    · rw [if_pos haddr] at hc
      by_cases hst : eraseStatus addr (sectorSize addr) = 0
      · rw [if_pos hst] at hc
        rcases hrec : (eraseLoop sectorSize hs eraseStatus limit
            (addr + sectorSize addr) (eraseStatus addr (sectorSize addr))).2 with
          _ | ⟨b, bs⟩
        · rw [hrec] at hc
          simp at hc
        · rw [hrec, List.dropLast_cons₂, List.mem_cons] at hc
          rcases hc with rfl | hc
          · exact hst
          · have := ih (addr + sectorSize addr) (eraseStatus addr (sectorSize addr))
              (by have := hs addr; omega) c
            rw [hrec] at this
            exact this hc
      · rw [if_neg hst] at hc
        simp at hc
    · rw [if_neg haddr] at hc
      simp at hc

/-- The erase loop's final status is 0 exactly when it issued at least one call and
every call succeeded, or issued none and the incoming `result` was already 0. -/
theorem eraseLoop_result (sectorSize : Nat → Nat) (hs : ∀ a, 0 < sectorSize a)
    (eraseStatus : Nat → Nat → Int) (limit : Nat) :
    ∀ n addr result, limit - addr ≤ n →
      ((eraseLoop sectorSize hs eraseStatus limit addr result).1 = 0 ↔
        ((eraseLoop sectorSize hs eraseStatus limit addr result).2 = [] ∧
          result = 0) ∨
        ((eraseLoop sectorSize hs eraseStatus limit addr result).2 ≠ [] ∧
          ∀ c ∈ (eraseLoop sectorSize hs eraseStatus limit addr result).2,
            c.2.2 = 0)) := by
  intro n
  induction n with
  | zero =>
    intro addr result h
    rw [eraseLoop, if_neg (by omega)]
    simp
  | succ n ih =>
    intro addr result h
    rw [eraseLoop]
    by_cases haddr : addr < limit
    · rw [if_pos haddr]
      by_cases hst : eraseStatus addr (sectorSize addr) = 0
      · rw [if_pos hst]
        have hrec := ih (addr + sectorSize addr) (eraseStatus addr (sectorSize addr))
          (by have := hs addr; omega)
        simp only [List.mem_cons, ne_eq, List.cons_ne_nil, not_false_eq_true,
          true_and, reduceCtorEq, false_and, false_or]
        rw [hrec]
        constructor
        · rintro (⟨hnil, hres⟩ | ⟨hne, hall⟩)
          · intro c hc
            rcases hc with rfl | hc
            · exact hst
            · rw [hnil] at hc
              simp at hc
          · intro c hc
            rcases hc with rfl | hc
            · exact hst
            · exact hall c hc
        · intro hall
          rcases hrec2 : (eraseLoop sectorSize hs eraseStatus limit
              (addr + sectorSize addr) (eraseStatus addr (sectorSize addr))).2 with
            _ | ⟨b, bs⟩
          · exact Or.inl ⟨rfl, hst⟩
          · refine Or.inr ⟨by simp, ?_⟩
            intro c hc
            exact hall c (Or.inr (hrec2 ▸ hc))
      · rw [if_neg hst]
        simp [hst]
    · rw [if_neg haddr]
      simp

/-- C5: `eraseActiveFirmware` first walks sector sizes from the header base address
to find the sector-aligned end address covering `headerSize + payloadLength`; if
that end address is not below the configured maximum extent it rejects the request
through the distinct capacity-error branch, issuing no erase call at all (so the
region's bytes are untouched); otherwise it erases sector by sector, every issued
call except possibly the last succeeded (immediate abort on the first failure), the
capacity branch is not taken, and the call succeeds exactly when at least one
sector was erased and every erase call returned status 0. -/
theorem C5_erase_capacity_and_fail_fast (sectorSize : Nat → Nat)
    (hs : ∀ a, 0 < sectorSize a) (eraseStatus : Nat → Nat → Int)
    (hdrAddr hdrSize appStart maxAppSize firmwareSize : Nat) :
    (maxAppSize + appStart ≤
        findEraseEnd sectorSize hs (hdrAddr + (hdrSize + firmwareSize)) hdrAddr →
      eraseActiveFirmware sectorSize hs eraseStatus hdrAddr hdrSize appStart
        maxAppSize firmwareSize = (false, true, [])) ∧
    (findEraseEnd sectorSize hs (hdrAddr + (hdrSize + firmwareSize)) hdrAddr <
        maxAppSize + appStart →
      (eraseActiveFirmware sectorSize hs eraseStatus hdrAddr hdrSize appStart
          maxAppSize firmwareSize).2.1 = false ∧
      (∀ c ∈ (eraseActiveFirmware sectorSize hs eraseStatus hdrAddr hdrSize appStart
          maxAppSize firmwareSize).2.2.dropLast, c.2.2 = 0) ∧
      ((eraseActiveFirmware sectorSize hs eraseStatus hdrAddr hdrSize appStart
          maxAppSize firmwareSize).1 = true ↔
        (eraseActiveFirmware sectorSize hs eraseStatus hdrAddr hdrSize appStart
            maxAppSize firmwareSize).2.2 ≠ [] ∧
          ∀ c ∈ (eraseActiveFirmware sectorSize hs eraseStatus hdrAddr hdrSize
            appStart maxAppSize firmwareSize).2.2, c.2.2 = 0)) := by
  constructor
  · intro hcap
    rw [eraseActiveFirmware, if_neg (by omega)]
  · intro hcap
    rw [eraseActiveFirmware, if_pos hcap]
    refine ⟨rfl, ?_, ?_⟩
    · exact eraseLoop_dropLast sectorSize hs eraseStatus
        (hdrAddr + (hdrSize + firmwareSize))
        (hdrAddr + (hdrSize + firmwareSize) - hdrAddr) hdrAddr (-1) le_rfl
    · have hres := eraseLoop_result sectorSize hs eraseStatus
        (hdrAddr + (hdrSize + firmwareSize))
        (hdrAddr + (hdrSize + firmwareSize) - hdrAddr) hdrAddr (-1) le_rfl
      constructor
      · intro h
        have h0 : (eraseLoop sectorSize hs eraseStatus
            (hdrAddr + (hdrSize + firmwareSize)) hdrAddr (-1)).1 = 0 := by
          by_contra hne
          rw [if_neg hne] at h
          exact Bool.false_ne_true h
        rcases hres.mp h0 with ⟨-, habs⟩ | ⟨hne, hall⟩
        · exact absurd habs (by decide)
        · exact ⟨hne, hall⟩
      · rintro ⟨hne, hall⟩
        rw [if_pos (hres.mpr (Or.inr ⟨hne, hall⟩))]

theorem C5_erase_capacity_and_fail_fast_witness :
    findEraseEnd (fun _ => 4) (fun _ => Nat.succ_pos 3) (0 + (4 + 4)) 0 < 16 + 0 ∧
    (eraseActiveFirmware (fun _ => 4) (fun _ => Nat.succ_pos 3) (fun _ _ => 0) 0 4 0
        16 4).2.1 = false :=
  ⟨by simp [findEraseEnd],
   ((C5_erase_capacity_and_fail_fast (fun _ => 4) (fun _ => Nat.succ_pos 3)
      (fun _ _ => 0) 0 4 0 16 4).2 (by simp [findEraseEnd])).1⟩

/-- The inner page-programming loop of `writeActiveFirmware` (lines 364-376): one
`flash.program` call per page within the rounded span, breaking once a call has
returned a non-zero status. `progStatus` gives the status of the program call at
each flash address. Returns the final `retval` and the flash addresses of the
program calls issued. -/
def pageLoop (progStatus : Nat → Int) (pageSize : Nat) (hp : 0 < pageSize)
    (base programSize : Nat) (programOffset : Nat) (retval : Int) :
    Int × List Nat :=
  if programOffset < programSize ∧ retval = 0 then
    ((pageLoop progStatus pageSize hp base programSize (programOffset + pageSize)
        (progStatus (base + programOffset))).1,
     (base + programOffset) ::
       (pageLoop progStatus pageSize hp base programSize (programOffset + pageSize)
         (progStatus (base + programOffset))).2)
  else
    (retval, [])
termination_by programSize - programOffset
decreasing_by
  omega

/-- The outer loop of `writeActiveFirmware` (lines 330-391): request up to
`readSizeMax` bytes from the update-client source at the current offset
(`ucpRead offset requested = some actual` models the `ARM_UC_PAAL_EVENT_READ_DONE`
event with `buffer.size = actual`; `none` models any other event), fail on a
non-done event or an empty read, otherwise program the chunk one page at a time
over the chunk size rounded up to whole pages, and advance `offset` by the rounded
(not raw) chunk size. Returns the final `retval` and all program-call addresses. -/
def writeLoop (ucpRead : Nat → Nat → Option Nat) (progStatus : Nat → Int)
    (pageSize : Nat) (hp : 0 < pageSize) (readSizeMax appStart size : Nat)
    (offset : Nat) (retval : Int) : Int × List Nat :=
  if offset < size ∧ retval = 0 then
    match ucpRead offset
        (if size - offset > readSizeMax then readSizeMax else size - offset) with
    | some actual =>
      if 0 < actual then
        ((writeLoop ucpRead progStatus pageSize hp readSizeMax appStart size
            (offset + (actual + pageSize - 1) / pageSize * pageSize)
            (pageLoop progStatus pageSize hp (appStart + offset)
              ((actual + pageSize - 1) / pageSize * pageSize) 0 0).1).1,
         (pageLoop progStatus pageSize hp (appStart + offset)
            ((actual + pageSize - 1) / pageSize * pageSize) 0 0).2 ++
           (writeLoop ucpRead progStatus pageSize hp readSizeMax appStart size
             (offset + (actual + pageSize - 1) / pageSize * pageSize)
             (pageLoop progStatus pageSize hp (appStart + offset)
               ((actual + pageSize - 1) / pageSize * pageSize) 0 0).1).2)
      else
        (-1, [])
    | none => (-1, [])
  else
    (retval, [])
termination_by size - offset
decreasing_by
  all_goals
    have h1 : 0 < (actual + pageSize - 1) / pageSize := Nat.div_pos (by omega) hp
    have h2 : 0 < (actual + pageSize - 1) / pageSize * pageSize := Nat.mul_pos h1 hp
    omega

/-- `writeActiveFirmware` (lines 295-397). The fatal `MBED_BOOTLOADER_ASSERT` that
the application start address falls on a page boundary (lines 308-313) is modelled
by `none` (the assert halts the program before any loop iteration). On the aligned
path, the read size is `BUFFER_SIZE` rounded down to a multiple of the page size,
and the result is the C boolean together with the addresses of all `flash.program`
calls issued. -/
def writeActiveFirmware (ucpRead : Nat → Nat → Option Nat) (progStatus : Nat → Int)
    (pageSize : Nat) (hp : 0 < pageSize) (bufSize appStart size : Nat) :
    Option (Bool × List Nat) :=
  if appStart % pageSize = 0 then
    some ((if (writeLoop ucpRead progStatus pageSize hp (bufSize / pageSize * pageSize)
        appStart size 0 0).1 = 0 then true else false),
      (writeLoop ucpRead progStatus pageSize hp (bufSize / pageSize * pageSize)
        appStart size 0 0).2)
  else
    none

/-- Every program call the page loop issues from a page-aligned base at a
page-aligned program offset lands on a page-aligned address. -/
theorem pageLoop_aligned (progStatus : Nat → Int) (pageSize : Nat) (hp : 0 < pageSize)
    (base programSize : Nat) (hbase : base % pageSize = 0) :
    ∀ n programOffset retval, programSize - programOffset ≤ n →
      programOffset % pageSize = 0 →
      ∀ a ∈ (pageLoop progStatus pageSize hp base programSize programOffset
        retval).2, a % pageSize = 0 := by
  intro n
  induction n with
  | zero =>
    intro po retval h hpo a ha
    rw [pageLoop, if_neg (by omega)] at ha
    simp at ha
  | succ n ih =>
    intro po retval h hpo a ha
    rw [pageLoop] at ha
    by_cases hc : po < programSize ∧ retval = 0
    · rw [if_pos hc] at ha
      rcases List.mem_cons.mp ha with rfl | ha
      · simp [Nat.add_mod, hbase, hpo]
      · exact ih (po + pageSize) _ (by omega)
          (by simp [Nat.add_mod, hpo, Nat.mod_self]) a ha
    · rw [if_neg hc] at ha
      simp at ha

/-- Every program call the outer write loop issues from a page-aligned application
start and page-aligned offset lands on a page-aligned address. -/
theorem writeLoop_aligned (ucpRead : Nat → Nat → Option Nat) (progStatus : Nat → Int)
    (pageSize : Nat) (hp : 0 < pageSize) (readSizeMax appStart size : Nat)
    (happ : appStart % pageSize = 0) :
    ∀ n offset retval, size - offset ≤ n → offset % pageSize = 0 →
      ∀ a ∈ (writeLoop ucpRead progStatus pageSize hp readSizeMax appStart size
        offset retval).2, a % pageSize = 0 := by
  intro n
  induction n with
  | zero =>
    intro offset retval h hoff a ha
    rw [writeLoop, if_neg (by rintro ⟨h1, -⟩; omega)] at ha
    simp at ha
  | succ n ih =>
    intro offset retval h hoff a ha
    rw [writeLoop] at ha
    by_cases hc : offset < size ∧ retval = 0
    · rw [if_pos hc] at ha
      rcases hu : ucpRead offset
          (if size - offset > readSizeMax then readSizeMax else size - offset) with
        _ | actual
      · rw [hu] at ha
        simp at ha
      · simp only [hu] at ha
        by_cases hact : 0 < actual
        · rw [if_pos hact] at ha
          have hq : 0 < (actual + pageSize - 1) / pageSize :=
            Nat.div_pos (by omega) hp
          have hps : 0 < (actual + pageSize - 1) / pageSize * pageSize :=
            Nat.mul_pos hq hp
          rcases List.mem_append.mp ha with ha | ha
          · exact pageLoop_aligned progStatus pageSize hp (appStart + offset)
              ((actual + pageSize - 1) / pageSize * pageSize)
              (by simp [Nat.add_mod, happ, hoff])
              ((actual + pageSize - 1) / pageSize * pageSize) 0 0 (by omega)
              (Nat.zero_mod _) a ha
          · exact ih (offset + (actual + pageSize - 1) / pageSize * pageSize) _
              (by omega) (by simp [Nat.add_mul_mod_self_right, hoff]) a ha
        · rw [if_neg hact] at ha
          simp at ha
    · rw [if_neg hc] at ha
      simp at ha

/-- C6: in `writeActiveFirmware` the write offset starts at 0 and advances by the
chunk size rounded up to whole pages, never by the raw chunk size; together with the
fatal page-alignment assert on the application start address this makes the flash
address of every `flash.program` call issued in every iteration page-aligned. -/
theorem C6_program_addresses_page_aligned (ucpRead : Nat → Nat → Option Nat)
    (progStatus : Nat → Int) (pageSize : Nat) (hp : 0 < pageSize)
    (bufSize appStart size : Nat) (res : Bool) (trace : List Nat)
    (h : writeActiveFirmware ucpRead progStatus pageSize hp bufSize appStart size =
      some (res, trace)) :
    ∀ a ∈ trace, a % pageSize = 0 := by
  rw [writeActiveFirmware] at h
  by_cases happ : appStart % pageSize = 0
  · rw [if_pos happ] at h
    simp only [Option.some.injEq, Prod.mk.injEq] at h
    obtain ⟨-, htrace⟩ := h
    subst htrace
    exact writeLoop_aligned ucpRead progStatus pageSize hp
      (bufSize / pageSize * pageSize) appStart size happ size 0 0 (by omega)
      (Nat.zero_mod _)
  · rw [if_neg happ] at h
    exact absurd h (by simp)

theorem C6_program_addresses_page_aligned_witness :
    writeActiveFirmware (fun _ req => some req) (fun _ => 0) 2 (Nat.succ_pos 1) 4 4 3
        = some (true, [4, 6]) ∧
    4 % 2 = 0 ∧ 6 % 2 = 0 := by
  have heval : writeActiveFirmware (fun _ req => some req) (fun _ => 0) 2
      (Nat.succ_pos 1) 4 4 3 = some (true, [4, 6]) := by
    simp [writeActiveFirmware, writeLoop, pageLoop]
  exact ⟨heval,
    C6_program_addresses_page_aligned (fun _ req => some req) (fun _ => 0) 2
      (Nat.succ_pos 1) 4 4 3 true [4, 6] heval 4 (by simp),
    C6_program_addresses_page_aligned (fun _ req => some req) (fun _ => 0) 2
      (Nat.succ_pos 1) 4 4 3 true [4, 6] heval 6 (by simp)⟩

/-- The state of the secondary (external) device as seen through the byte-granular
`UnalignedBlockDevice` adapter, relative to the caller's `bdOffset`: `detailsSlot`
is the `arm_uc_firmware_details_t` record stored at
`[bdOffset, bdOffset + sizeof(arm_uc_firmware_details_t))`, and `payload i` is the
byte at `bdOffset + sizeof(arm_uc_firmware_details_t) + i`. -/
structure BdState where
  detailsSlot : FirmwareDetails
  payload : Nat → Nat

/-- A write issued to the secondary device by `copyActiveApplicationIntoFlash`:
a payload chunk (`ubd.program` at line 524; offset relative to the payload base
`bdOffset + sizeof(arm_uc_firmware_details_t)`), or the details record
(`ubd.program` at line 561). -/
inductive BdWrite
| payload (offset len : Nat)
| detailsRecord
deriving DecidableEq

/-- `ubd.program` of a payload chunk: the device bytes at
`[offset, offset + data.length)` (relative to the payload base) become `data`. -/
def bdProgram (st : BdState) (data : List Nat) (offset : Nat) : BdState :=
  { st with payload := fun i =>
      if offset ≤ i ∧ i < offset + data.length then data.getD (i - offset) 0
      else st.payload i }

/-- Outcome of the payload copy loop: device state, writes issued to the secondary
device, internal-flash read calls issued, and the final internal read status. -/
structure LoopOut where
  bd : BdState
  writes : List BdWrite
  reads : List (Nat × Nat)
  status : Int

/-- The payload copy loop of `copyActiveApplicationIntoFlash` (lines 512-537):
while bytes remain and the last internal-flash read status is 0, read a chunk of at
most `BUFFER_SIZE` bytes from internal flash and program it to the secondary device
at the current offset. The status returned by `ubd.program` is discarded by the C
code and so plays no part here; the `flash.read` status is consulted only by the
next loop-guard check, exactly as in the C. -/
def mirrorLoop (flashRead : Nat → Nat → Int × List Nat) (bufSize : Nat)
    (hb : 0 < bufSize) (appStart size : Nat) (remaining : Nat) (st : BdState)
    (writes : List BdWrite) (reads : List (Nat × Nat)) (status : Int) : LoopOut :=
  if 0 < remaining ∧ status = 0 then
    mirrorLoop flashRead bufSize hb appStart size
      (remaining - (if remaining > bufSize then bufSize else remaining))
      (bdProgram st
        (flashRead (appStart + (size - remaining))
          (if remaining > bufSize then bufSize else remaining)).2
        (size - remaining))
      (writes ++ [BdWrite.payload (size - remaining)
        (if remaining > bufSize then bufSize else remaining)])
      (reads ++ [(appStart + (size - remaining),
        if remaining > bufSize then bufSize else remaining)])
      (flashRead (appStart + (size - remaining))
        (if remaining > bufSize then bufSize else remaining)).1
  else
    ⟨st, writes, reads, status⟩
termination_by remaining
decreasing_by
  simp_wf
  split <;> omega

/-- The digest of the first `n` payload bytes on the secondary device, as computed
by `BdSha256.calculate(bdOffset + sizeof(arm_uc_firmware_details_t), n, shaInBd)`
(lines 541-542), under the abstract digest function `H`. -/
def bdDigest (H : List Nat → List Nat) (st : BdState) (n : Nat) : List Nat :=
  H ((List.range n).map st.payload)

/-- Result of one `copyActiveApplicationIntoFlash` run: the returned code, the
secondary device's final state, the writes issued to it, and the internal-flash
payload read calls issued. -/
structure MirrorOut where
  result : BootResult
  bd : BdState
  writes : List BdWrite
  reads : List (Nat × Nat)

/-- `copyActiveApplicationIntoFlash` (lines 461-572). The external capabilities are
parameters: `initStatus` is the status of `ubd.init()`; `hdr` the outcome of
`readActiveFirmwareHeader` (`none` = failure); `currReadStatus` the status of the
`ubd.read` of the details record already on the device (whose value is the device's
`detailsSlot`); `flashRead` the internal flash driver; `bdProgStatus` the status
each `ubd.program` call reports — the C code never inspects these statuses
(lines 524 and 561 discard the return value), so the parameter does not influence
the body. -/
def copyActiveApplicationIntoFlash (H : List Nat → List Nat)
    (flashRead : Nat → Nat → Int × List Nat) (appStart bufSize : Nat)
    (hb : 0 < bufSize) (bdProgStatus : Nat → Nat → Int) (initStatus : Int)
    (currReadStatus : Int) (hdr : Option FirmwareDetails) (st : BdState) :
    MirrorOut :=
  if initStatus ≠ 0 then
    ⟨BootResult.error, st, [], []⟩
  else
    match hdr with
    | some d =>
      if 0 < d.size then
        if currReadStatus ≠ 0 then
          ⟨BootResult.error, st, [], []⟩
        else if st.detailsSlot.version = d.version ∧ st.detailsSlot.size = d.size then
          ⟨BootResult.success, st, [], []⟩
        else
          if bdDigest H
              (mirrorLoop flashRead bufSize hb appStart d.size d.size st [] [] 0).bd
              d.size = d.hash then
            ⟨BootResult.success,
             { (mirrorLoop flashRead bufSize hb appStart d.size d.size st [] [] 0).bd
                with detailsSlot := d },
             (mirrorLoop flashRead bufSize hb appStart d.size d.size st [] [] 0).writes
               ++ [BdWrite.detailsRecord],
             (mirrorLoop flashRead bufSize hb appStart d.size d.size st [] [] 0).reads⟩
          else
            ⟨BootResult.error,
             (mirrorLoop flashRead bufSize hb appStart d.size d.size st [] [] 0).bd,
             (mirrorLoop flashRead bufSize hb appStart d.size d.size st [] [] 0).writes,
             (mirrorLoop flashRead bufSize hb appStart d.size d.size st [] [] 0).reads⟩
      else
        ⟨BootResult.empty, st, [], []⟩
    | none => ⟨BootResult.error, st, [], []⟩

/-- The copy loop only issues payload writes: it never writes the details record. -/
theorem mirrorLoop_no_details_write (flashRead : Nat → Nat → Int × List Nat)
    (bufSize : Nat) (hb : 0 < bufSize) (appStart size : Nat) :
    ∀ remaining st writes reads status, BdWrite.detailsRecord ∉ writes →
      BdWrite.detailsRecord ∉
        (mirrorLoop flashRead bufSize hb appStart size remaining st writes reads
          status).writes := by
  intro remaining
  induction remaining using Nat.strong_induction_on with
  | _ remaining ih =>
    intro st writes reads status hw
    rw [mirrorLoop]
    by_cases hc : 0 < remaining ∧ status = 0
    · rw [if_pos hc]
      have hlt : remaining - (if remaining > bufSize then bufSize else remaining) <
          remaining := by
        split <;> omega
      apply ih _ hlt
      simp [hw]
    · rw [if_neg hc]
      exact hw

/-- C7: in `copyActiveApplicationIntoFlash`, for every run reaching the post-copy
digest comparison (device init ok, valid header with positive size, existing
details record readable, no version/size short-circuit): a digest mismatch makes
the run report `RESULT_ERROR` with the details record never written to the device,
while a digest match makes it report `RESULT_SUCCESS` with the details-record
write issued last, after all payload writes. -/
theorem C7_details_record_committed_last (H : List Nat → List Nat)
    (flashRead : Nat → Nat → Int × List Nat) (appStart bufSize : Nat)
    (hb : 0 < bufSize) (bdProgStatus : Nat → Nat → Int) (d : FirmwareDetails)
    (st : BdState) (hpos : 0 < d.size)
    (hne : ¬(st.detailsSlot.version = d.version ∧ st.detailsSlot.size = d.size)) :
    (bdDigest H (mirrorLoop flashRead bufSize hb appStart d.size d.size st [] [] 0).bd
        d.size ≠ d.hash →
      (copyActiveApplicationIntoFlash H flashRead appStart bufSize hb bdProgStatus 0 0
          (some d) st).result = BootResult.error ∧
      BdWrite.detailsRecord ∉
        (copyActiveApplicationIntoFlash H flashRead appStart bufSize hb bdProgStatus 0
          0 (some d) st).writes) ∧
    (bdDigest H (mirrorLoop flashRead bufSize hb appStart d.size d.size st [] [] 0).bd
        d.size = d.hash →
      (copyActiveApplicationIntoFlash H flashRead appStart bufSize hb bdProgStatus 0 0
          (some d) st).result = BootResult.success ∧
      (copyActiveApplicationIntoFlash H flashRead appStart bufSize hb bdProgStatus 0 0
          (some d) st).writes =
        (mirrorLoop flashRead bufSize hb appStart d.size d.size st [] [] 0).writes ++
          [BdWrite.detailsRecord] ∧
      BdWrite.detailsRecord ∉
        (mirrorLoop flashRead bufSize hb appStart d.size d.size st [] [] 0).writes) := by
  have h0 : ¬((0:Int) ≠ 0) := fun h => h rfl
  have hnotmem := mirrorLoop_no_details_write flashRead bufSize hb appStart d.size
    d.size st [] [] 0 (by simp)
  constructor
  · intro hdig
    simp only [copyActiveApplicationIntoFlash]
    rw [if_neg h0, if_pos hpos, if_neg h0, if_neg hne, if_neg hdig]
    exact ⟨rfl, hnotmem⟩
  · intro hdig
    simp only [copyActiveApplicationIntoFlash]
    rw [if_neg h0, if_pos hpos, if_neg h0, if_neg hne, if_pos hdig]
    exact ⟨rfl, rfl, hnotmem⟩

theorem C7_details_record_committed_last_witness :
    0 < (1:Nat) ∧
    (copyActiveApplicationIntoFlash (fun l => l) (memRead fun _ => 5) 0 1 Nat.one_pos
        (fun _ _ => 0) 0 0 (some ⟨1, 1, [5]⟩) ⟨⟨0, 0, []⟩, fun _ => 0⟩).result =
      BootResult.success :=
  ⟨Nat.one_pos,
   ((C7_details_record_committed_last (fun l => l) (memRead fun _ => 5) 0 1
      Nat.one_pos (fun _ _ => 0) ⟨1, 1, [5]⟩ ⟨⟨0, 0, []⟩, fun _ => 0⟩ Nat.one_pos
      (by simp)).2
    (by simp [mirrorLoop, bdDigest, bdProgram, memRead, readRange]; decide)).1⟩

/-- C8: if the details record already on the secondary device has the same size and
version as the internal details, the mirror returns success immediately with zero
internal payload reads and zero writes to the device, the device state unchanged;
consequently a second mirror call run immediately after any successful call (same
internal region and capabilities) copies nothing and still succeeds. -/
theorem C8_mirror_short_circuit_idempotent (H : List Nat → List Nat)
    (flashRead : Nat → Nat → Int × List Nat) (appStart bufSize : Nat)
    (hb : 0 < bufSize) (bdProgStatus : Nat → Nat → Int) (d : FirmwareDetails)
    (st : BdState) (hpos : 0 < d.size) :
    (st.detailsSlot.version = d.version ∧ st.detailsSlot.size = d.size →
      copyActiveApplicationIntoFlash H flashRead appStart bufSize hb bdProgStatus 0 0
          (some d) st = ⟨BootResult.success, st, [], []⟩) ∧
    ((copyActiveApplicationIntoFlash H flashRead appStart bufSize hb bdProgStatus 0 0
        (some d) st).result = BootResult.success →
      copyActiveApplicationIntoFlash H flashRead appStart bufSize hb bdProgStatus 0 0
          (some d)
          (copyActiveApplicationIntoFlash H flashRead appStart bufSize hb bdProgStatus
            0 0 (some d) st).bd =
        ⟨BootResult.success,
         (copyActiveApplicationIntoFlash H flashRead appStart bufSize hb bdProgStatus
           0 0 (some d) st).bd, [], []⟩) := by
  have h0 : ¬((0:Int) ≠ 0) := fun h => h rfl
  have hmain : ∀ st2 : BdState,
      st2.detailsSlot.version = d.version ∧ st2.detailsSlot.size = d.size →
      copyActiveApplicationIntoFlash H flashRead appStart bufSize hb bdProgStatus 0 0
        (some d) st2 = ⟨BootResult.success, st2, [], []⟩ := by
    intro st2 hmatch
    simp only [copyActiveApplicationIntoFlash]
    rw [if_neg h0, if_pos hpos, if_neg h0, if_pos hmatch]
  refine ⟨hmain st, ?_⟩
  intro hsucc
  apply hmain
  by_cases hmatch : st.detailsSlot.version = d.version ∧ st.detailsSlot.size = d.size
  · rw [hmain st hmatch]
    exact hmatch
  · by_cases hdig : bdDigest H
        (mirrorLoop flashRead bufSize hb appStart d.size d.size st [] [] 0).bd
        d.size = d.hash
    · have hout : copyActiveApplicationIntoFlash H flashRead appStart bufSize hb
          bdProgStatus 0 0 (some d) st =
          ⟨BootResult.success,
           { (mirrorLoop flashRead bufSize hb appStart d.size d.size st [] [] 0).bd
              with detailsSlot := d },
           (mirrorLoop flashRead bufSize hb appStart d.size d.size st [] [] 0).writes
             ++ [BdWrite.detailsRecord],
           (mirrorLoop flashRead bufSize hb appStart d.size d.size st [] [] 0).reads⟩ := by
        simp only [copyActiveApplicationIntoFlash]
        rw [if_neg h0, if_pos hpos, if_neg h0, if_neg hmatch, if_pos hdig]
      rw [hout]
      exact ⟨rfl, rfl⟩
    · have hout : (copyActiveApplicationIntoFlash H flashRead appStart bufSize hb
          bdProgStatus 0 0 (some d) st).result = BootResult.error := by
        simp only [copyActiveApplicationIntoFlash]
        rw [if_neg h0, if_pos hpos, if_neg h0, if_neg hmatch, if_neg hdig]
      rw [hout] at hsucc
      exact absurd hsucc (by decide)

theorem C8_mirror_short_circuit_idempotent_witness :
    0 < (1:Nat) ∧
    copyActiveApplicationIntoFlash (fun l => l) (memRead fun _ => 9) 0 1 Nat.one_pos
        (fun _ _ => 0) 0 0 (some ⟨1, 3, [9]⟩) ⟨⟨1, 3, [9]⟩, fun _ => 0⟩ =
      ⟨BootResult.success, ⟨⟨1, 3, [9]⟩, fun _ => 0⟩, [], []⟩ :=
  ⟨Nat.one_pos,
   (C8_mirror_short_circuit_idempotent (fun l => l) (memRead fun _ => 9) 0 1
      Nat.one_pos (fun _ _ => 0) ⟨1, 3, [9]⟩ ⟨⟨1, 3, [9]⟩, fun _ => 0⟩
      Nat.one_pos).1 ⟨rfl, rfl⟩⟩

/-- C10: the status returned by each secondary-device `ubd.program` call is
discarded by `copyActiveApplicationIntoFlash`: two runs differing only in the
program-call statuses (device contents evolving identically) produce the identical
outcome — result code, device state, writes and reads — so a failed program call is
detected, if at all, only by the post-copy digest comparison. -/
theorem C10_program_status_discarded (H : List Nat → List Nat)
    (flashRead : Nat → Nat → Int × List Nat) (appStart bufSize : Nat)
    (hb : 0 < bufSize) (s1 s2 : Nat → Nat → Int) (initStatus currReadStatus : Int)
    (hdr : Option FirmwareDetails) (st : BdState) :
    copyActiveApplicationIntoFlash H flashRead appStart bufSize hb s1 initStatus
        currReadStatus hdr st =
      copyActiveApplicationIntoFlash H flashRead appStart bufSize hb s2 initStatus
        currReadStatus hdr st := rfl

theorem C10_program_status_discarded_witness :
    0 < (1:Nat) ∧
    copyActiveApplicationIntoFlash (fun l => l) (memRead fun _ => 5) 0 1 Nat.one_pos
        (fun _ _ => 0) 0 0 (some ⟨1, 1, [5]⟩) ⟨⟨0, 0, []⟩, fun _ => 0⟩ =
      copyActiveApplicationIntoFlash (fun l => l) (memRead fun _ => 5) 0 1 Nat.one_pos
        (fun _ _ => -1) 0 0 (some ⟨1, 1, [5]⟩) ⟨⟨0, 0, []⟩, fun _ => 0⟩ :=
  ⟨Nat.one_pos,
   C10_program_status_discarded (fun l => l) (memRead fun _ => 5) 0 1 Nat.one_pos
     (fun _ _ => 0) (fun _ _ => -1) 0 0 (some ⟨1, 1, [5]⟩) ⟨⟨0, 0, []⟩, fun _ => 0⟩⟩
